import Mathlib

/-!
# Verification of the finance-tracker core against its specification

Shallow embedding of the repository's core modules:

* `scripts/ui.js` (validators part): `REGEX_PATTERNS`, `validateField`,
  `getValidationMessage`, `validateForm`, `sanitizeInput`;
* the state module (`src/unnamed/part_001`): `sortRecords`, `addRecord`,
  `updateRecord`, `deleteRecord`, `getBudgetInfo`;
* the search module (`src/unnamed/part_002`): `compileRegex`;
* `scripts/storage.js`: `importData`.

Strings are modelled as `List Char` (accessed through `String.data`);
JavaScript numbers as `ℚ` (the embedded code only compares and adds values
that are exactly representable, see the comments at the places where this
matters); the JavaScript regular-expression engine by an explicit abstract
syntax tree with Brzozowski-derivative matching for the fragment the claims
exercise; `localeCompare` by an abstract comparison function passed as a
parameter; the wall clock by an explicit `NowClock` value.
-/

/-! ## JavaScript string primitives -/

/-- Whitespace for `String.prototype.trim` and the regex class `\s`
(ASCII whitespace together with NBSP, BOM and the two Unicode line
separators; the further exotic Unicode space characters are not produced by
any input the claims touch). -/
def jsWhitespaceChar (c : Char) : Bool :=
  c = ' ' || c = '\t' || c = '\n' || c = '\r' || c = '\x0b' || c = '\x0c' ||
  c = ' ' || c = ' ' || c = ' ' || c = '﻿'

/-- Line terminators, which the regex metacharacter `.` does not match. -/
def jsLineTerminator (c : Char) : Bool :=
  c = '\n' || c = '\r' || c = ' ' || c = ' '

/-- Model of `String.prototype.trim`. -/
def jsTrim (l : List Char) : List Char :=
  ((l.dropWhile jsWhitespaceChar).reverse.dropWhile jsWhitespaceChar).reverse

/-- Model of `String.prototype.trim` at the `String` level. -/
def jsTrimS (s : String) : String :=
  String.mk (jsTrim s.data)

/-- ASCII digit. -/
def isDigitChar (c : Char) : Bool :=
  48 ≤ c.toNat && c.toNat ≤ 57

/-- Numeric value of an ASCII digit. -/
def digitVal (c : Char) : ℕ :=
  c.toNat - 48

/-- Value of a string of decimal digits. -/
def digitsToNat (l : List Char) : ℕ :=
  l.foldl (fun a c => 10 * a + digitVal c) 0

/-- ASCII lower-casing, the case folding the embedded regex engine uses for
the `i` flag (the repository only matches ASCII text case-insensitively). -/
def toLowerAscii (c : Char) : Char :=
  if 65 ≤ c.toNat && c.toNat ≤ 90 then Char.ofNat (c.toNat + 32) else c

/-- The regex class `\w`: ASCII letters, digits and underscore. -/
def isWordChar (c : Char) : Bool :=
  (48 ≤ c.toNat && c.toNat ≤ 57) || (65 ≤ c.toNat && c.toNat ≤ 90) ||
  (97 ≤ c.toNat && c.toNat ≤ 122) || c = '_'

/-! ## `REGEX_PATTERNS` of `scripts/ui.js` (validators module)

Each of the four fixed validation regexes is embedded as a decidable
predicate on the character list, faithful to the pattern's anchored
structure. -/

/-- The group `(0|[1-9]\d*)` of `REGEX_PATTERNS.amount`. -/
def amountIntPartOK : List Char → Bool
  | [] => false
  | c :: cs =>
    if c = '0' then cs.isEmpty
    else (49 ≤ c.toNat && c.toNat ≤ 57) && cs.all isDigitChar

/-- The optional group `(\.\d{1,2})` of `REGEX_PATTERNS.amount`: the part
after the dot is one or two digits. -/
def amountFracOK (l : List Char) : Bool :=
  (l.length = 1 || l.length = 2) && l.all isDigitChar

/-- Split a string at its first `.`: the part before, and the part after
when a dot is present (how the anchored amount pattern decomposes its
subject). -/
def splitAtDot : List Char → List Char × Option (List Char)
  | [] => ([], none)
  | c :: rest =>
    if c = '.' then ([], some rest)
    else
      let p := splitAtDot rest
      (c :: p.1, p.2)

/-- Test of `REGEX_PATTERNS.amount`, the anchored pattern
`^(0|[1-9]\d*)(\.\d{1,2})?$`. -/
def amountRegexOK (l : List Char) : Bool :=
  match splitAtDot l with
  | (ip, none) => amountIntPartOK ip
  | (ip, some fr) => amountIntPartOK ip && amountFracOK fr

/-- Exact value, in cents, of a string accepted by `REGEX_PATTERNS.amount`.
`parseFloat` on such a string yields the IEEE double nearest to this
rational; because consecutive representable amounts are at least a cent
apart while the doubles near the bounds `0` and `999999.99` are far denser,
the comparisons `amount <= 0` and `amount > 999999.99` in `validateForm`
decide exactly as the rational comparisons on this value do. -/
def amountCents (l : List Char) : ℕ :=
  match splitAtDot l with
  | (ip, none) => digitsToNat ip * 100
  | (ip, some fr) =>
    digitsToNat ip * 100 +
      (match fr with
       | [d] => 10 * digitVal d
       | [d, e] => 10 * digitVal d + digitVal e
       | _ => 0)

/-- Test of `REGEX_PATTERNS.description`, the pattern `^\S(?:.*\S)?$`:
a single non-space character, or a non-space character, middle characters
that `.` can match (no line terminators), and a final non-space character. -/
def descriptionRegexOK : List Char → Bool
  | [] => false
  | c :: cs =>
    if cs.isEmpty then !jsWhitespaceChar c
    else
      !jsWhitespaceChar c && cs.dropLast.all (fun x => !jsLineTerminator x) &&
        !jsWhitespaceChar (cs.getLastD c)

/-- Month part `(0[1-9]|1[0-2])` of `REGEX_PATTERNS.date`. -/
def dateMonthOK (a b : Char) : Bool :=
  (a = '0' && 49 ≤ b.toNat && b.toNat ≤ 57) ||
  (a = '1' && 48 ≤ b.toNat && b.toNat ≤ 50)

/-- Day part `(0[1-9]|[12]\d|3[01])` of `REGEX_PATTERNS.date`. -/
def dateDayOK (a b : Char) : Bool :=
  (a = '0' && 49 ≤ b.toNat && b.toNat ≤ 57) ||
  ((a = '1' || a = '2') && isDigitChar b) ||
  (a = '3' && (b = '0' || b = '1'))

/-- Test of `REGEX_PATTERNS.date`, the anchored pattern
`^\d{4}-(0[1-9]|1[0-2])-(0[1-9]|[12]\d|3[01])$`. -/
def dateRegexOK : List Char → Bool
  | [y1, y2, y3, y4, h1, m1, m2, h2, d1, d2] =>
    isDigitChar y1 && isDigitChar y2 && isDigitChar y3 && isDigitChar y4 &&
    h1 = '-' && h2 = '-' && dateMonthOK m1 m2 && dateDayOK d1 d2
  | _ => false

/-- Case-insensitive equality of two character lists (ASCII folding), the
way a backreference compares under the `i` flag. -/
def ciEqList (a b : List Char) : Bool :=
  a.map toLowerAscii = b.map toLowerAscii

/-- Word boundary `\b` between the text before (`pre`) and what follows:
holds when `pre` is empty or ends in a non-word character (used where the
next character is a word character). -/
def boundaryBefore (pre : List Char) : Bool :=
  pre.isEmpty || !isWordChar (pre.getLastD ' ')

/-- Word boundary `\b` after a word character: the rest is empty or starts
with a non-word character. -/
def boundaryAfter : List Char → Bool
  | [] => true
  | c :: _ => !isWordChar c

/-- Test of `REGEX_PATTERNS.duplicateWords`, the pattern `\b(\w+)\s+\1\b`
with the `i` flag: somewhere in the text, a word of one or more word
characters, at least one whitespace character, then the same word again
(case-insensitively), both word occurrences bounded by word boundaries.
The `\s+` run is forced to be the maximal one because the backreference
starts with a word character. -/
def duplicateWordsTest (l : List Char) : Bool :=
  (List.range (l.length + 1)).any (fun i =>
    boundaryBefore (l.take i) &&
    (List.range ((l.drop i).length + 1)).any (fun k =>
      decide (1 ≤ k) &&
      ((l.drop i).take k).all isWordChar &&
      (decide (1 ≤ ((l.drop (i + k)).takeWhile jsWhitespaceChar).length) &&
        (ciEqList (((l.drop (i + k)).dropWhile jsWhitespaceChar).take k)
            ((l.drop i).take k) &&
          decide (k ≤ ((l.drop (i + k)).dropWhile jsWhitespaceChar).length) &&
          boundaryAfter (((l.drop (i + k)).dropWhile jsWhitespaceChar).drop k)))))

/-! ## Calendar arithmetic for the date checks

`new Date("YYYY-MM-DD")` denotes UTC midnight of the named day;
`new Date()` the current instant; `setFullYear(y - 1)` keeps the local
month, day-of-month and time of day.  Day numbers are counted from
0001-01-01 in the proleptic Gregorian calendar; an out-of-range day of
month extrapolates linearly, exactly as `MakeDay` normalises. -/

/-- Leap year in the Gregorian calendar. -/
def isLeapYear (y : ℕ) : Bool :=
  y % 4 = 0 && (y % 100 ≠ 0 || y % 400 = 0)

/-- Days in a month of the Gregorian calendar (used to state which date
strings are calendar-valid, the scope on which the embedded date parse
agrees with the browser engines). -/
def daysInMonth (y m : ℕ) : ℕ :=
  match m with
  | 2 => if isLeapYear y then 29 else 28
  | 4 => 30
  | 6 => 30
  | 9 => 30
  | 11 => 30
  | _ => 31

/-- Days in the years `1, …, y-1`. -/
def daysBeforeYear (y : ℕ) : ℤ :=
  365 * ((y - 1 : ℕ) : ℤ) + (((y - 1) / 4 : ℕ) : ℤ) -
    (((y - 1) / 100 : ℕ) : ℤ) + (((y - 1) / 400 : ℕ) : ℤ)

/-- Days before month `m` in a non-leap year. -/
def monthDayOffset : ℕ → ℕ
  | 1 => 0 | 2 => 31 | 3 => 59 | 4 => 90 | 5 => 120 | 6 => 151
  | 7 => 181 | 8 => 212 | 9 => 243 | 10 => 273 | 11 => 304 | 12 => 334
  | _ => 0

/-- Day number of a calendar date, counted from day 0 = 0001-01-01. -/
def dayNumber (y m d : ℕ) : ℤ :=
  daysBeforeYear y + (monthDayOffset m : ℤ) +
    (if 2 < m && isLeapYear y then 1 else 0) + (d : ℤ) - 1

/-- Milliseconds per day. -/
def msPerDay : ℤ := 86400000

/-- The wall clock as the date branch of `validateForm` observes it: the
local calendar date, the local time of day in milliseconds, and the
timezone offset in milliseconds (local time = UTC + `tzOffset`; a fixed
offset, daylight-saving transitions are outside the model). -/
structure NowClock where
  year : ℕ
  month : ℕ
  day : ℕ
  msOfDay : ℤ
  tzOffset : ℤ
deriving DecidableEq

/-- Timestamp of `new Date()` in milliseconds from the model epoch. -/
def nowTs (n : NowClock) : ℤ :=
  dayNumber n.year n.month n.day * msPerDay + n.msOfDay - n.tzOffset

/-- Timestamp of `oneYearAgo`: `new Date()` after `setFullYear(year - 1)`,
which keeps local month, day and time of day (a 29 February extrapolates to
1 March, as the linear `dayNumber` does). -/
def oneYearAgoTs (n : NowClock) : ℤ :=
  dayNumber (n.year - 1) n.month n.day * msPerDay + n.msOfDay - n.tzOffset

/-- Year field of a string accepted by `REGEX_PATTERNS.date`. -/
def parseYear (l : List Char) : ℕ := digitsToNat (l.take 4)

/-- Month field of a string accepted by `REGEX_PATTERNS.date`. -/
def parseMonth (l : List Char) : ℕ := digitsToNat ((l.drop 5).take 2)

/-- Day field of a string accepted by `REGEX_PATTERNS.date`. -/
def parseDay (l : List Char) : ℕ := digitsToNat (l.drop 8)

/-- Timestamp of `new Date(s)` for a string accepted by
`REGEX_PATTERNS.date`: UTC midnight of the named day.  For a
calendar-invalid day such as `"2031-02-30"` this model extrapolates
linearly while browser engines yield an invalid date; the theorems about
parsed dates therefore restrict themselves to calendar-valid strings. -/
def parseDateTs (l : List Char) : ℤ :=
  dayNumber (parseYear l) (parseMonth l) (parseDay l) * msPerDay

/-! ## `validateField` and `validateForm` of the validators module -/

/-- Names of the rules in `REGEX_PATTERNS` (the `validateField` lookup can
only be reached with one of these four names). -/
inductive RuleName where
  | description
  | amount
  | date
  | duplicateWords
deriving DecidableEq

/-- Lookup of `REGEX_PATTERNS[ruleName].test(value)`. -/
def regexTestOf : RuleName → List Char → Bool
  | .description => descriptionRegexOK
  | .amount => amountRegexOK
  | .date => dateRegexOK
  | .duplicateWords => duplicateWordsTest

/-- Model of `getValidationMessage`: the fixed message map, defaulting to
`"Invalid format."` for a rule the map does not name (in particular for
`description`). -/
def getValidationMessage : RuleName → String
  | .amount => "Amount must be a positive number with maximum 2 decimal places."
  | .date => "Date must be in YYYY-MM-DD format."
  | .duplicateWords => "Description contains duplicate words."
  | _ => "Invalid format."

/-- The emptiness test `!value || value.trim() === ''` that opens
`validateField` and guards the required-fields loop of `validateForm`. -/
def requiredFail (l : List Char) : Bool :=
  l.isEmpty || (jsTrim l).isEmpty

/-- Model of `validateField(ruleName, value)`: the `(isValid, message)`
pair.  The description rule first tests the regex on the `trim`med value
(the special-handling branch of the source) and only then tests it on the
raw value, answering the generic message of `getValidationMessage`. -/
def validateField (rule : RuleName) (value : List Char) : Bool × String :=
  if requiredFail value then (false, "This field is required.")
  else if rule = .description && !regexTestOf .description (jsTrim value) then
    (false, "Description cannot have leading or trailing spaces.")
  else if !regexTestOf rule value then (false, getValidationMessage rule)
  else (true, "")

/-- The raw field values `validateForm` receives. -/
structure FormData where
  description : String
  amount : String
  date : String
  category : String
deriving DecidableEq

/-- Per-field error slots of the `errors` object `validateForm` builds. -/
structure FormErrors where
  description : Option String
  amount : Option String
  date : Option String
  category : Option String
deriving DecidableEq

/-- The two non-blocking warnings `validateForm` can attach. -/
structure FormWarnings where
  duplicateWords : Option String
  largeAmount : Option String
deriving DecidableEq

/-- Result record of `validateForm`. -/
structure FormValidation where
  isValid : Bool
  errors : FormErrors
  warnings : FormWarnings
deriving DecidableEq

/-- The required-fields loop body of `validateForm` for one field. -/
def requiredError (fieldName : String) (v : String) : Option String :=
  if requiredFail v.data then some (fieldName ++ " is required.") else none

/-- The amount slot of `errors` after `validateForm` ran: the required
check, then (when the value is a non-empty string) `validateField`
followed by the range checks on `parseFloat`, each later failure
overwriting the slot.  The float comparisons are decided on the exact
cent value, see `amountCents`. -/
def validateFormAmountError (amount : String) : Option String :=
  let e0 := requiredError "Amount" amount
  if amount = "" then e0
  else if !(validateField .amount amount.data).1 then
    some (validateField .amount amount.data).2
  else if amountCents amount.data = 0 then some "Amount must be greater than 0."
  else if 99999999 < amountCents amount.data then some "Amount is too large."
  else e0

/-- The description slot of `errors` after `validateForm` ran. -/
def validateFormDescriptionError (description : String) : Option String :=
  let e0 := requiredError "Description" description
  if description = "" then e0
  else if !(validateField .description description.data).1 then
    some (validateField .description description.data).2
  else e0

/-- The date slot of `errors` after `validateForm` ran: required check,
`validateField`, then the two range checks against `new Date()`. -/
def validateFormDateError (date : String) (now : NowClock) : Option String :=
  let e0 := requiredError "Date" date
  if date = "" then e0
  else if !(validateField .date date.data).1 then
    some (validateField .date date.data).2
  else if nowTs now < parseDateTs date.data then
    some "Date cannot be in the future."
  else if parseDateTs date.data < oneYearAgoTs now then
    some "Date cannot be more than one year ago."
  else e0

/-- Model of `validateForm(formData)`: the four error slots, the two
warnings, and `isValid` (which the source sets to `false` exactly when it
writes an error slot). -/
def validateForm (fd : FormData) (now : NowClock) : FormValidation :=
  let errs : FormErrors :=
    { description := validateFormDescriptionError fd.description
      amount := validateFormAmountError fd.amount
      date := validateFormDateError fd.date now
      category := requiredError "Category" fd.category }
  { isValid := errs.description.isNone && errs.amount.isNone &&
      errs.date.isNone && errs.category.isNone
    errors := errs
    warnings :=
      { duplicateWords :=
          if fd.description ≠ "" && duplicateWordsTest fd.description.data then
            some "Warning: Description contains duplicate words."
          else none
        largeAmount :=
          if fd.amount ≠ "" && 1000000 < amountCents fd.amount.data then
            some "Warning: This is a large amount. Please verify."
          else none } }

/-! ## The state module: records, sorting, CRUD, budget

The state module keeps `records` and `currentSort` at module scope and
signals `saveRecords` after every mutation.  It is embedded as explicit
state passing: every operation takes a `StoreState` and returns the result,
the new state, and whether it called the persistence collaborator.
`crypto.randomUUID`-based id generation and `new Date().toISOString()` are
external inputs, passed as the `freshId` and `nowIso` parameters. -/

/-- One financial record. -/
structure Record where
  id : String
  description : String
  amount : ℚ
  category : String
  date : String
  createdAt : String
  updatedAt : String
deriving DecidableEq

/-- The sort keys `sortRecords` can be called with: the fields of a record.
`amount` holds a number, every other field a string, so the
`typeof valA === 'number'` test in the comparator depends only on the key. -/
inductive SortKey where
  | id
  | description
  | amount
  | category
  | date
  | createdAt
  | updatedAt
deriving DecidableEq

/-- String value of a record field (used for the non-numeric keys). -/
def strField (r : Record) : SortKey → String
  | .id => r.id
  | .description => r.description
  | .amount => toString r.amount
  | .category => r.category
  | .date => r.date
  | .createdAt => r.createdAt
  | .updatedAt => r.updatedAt

/-- The comparator body of `sortRecords`: numeric difference for the
numeric field, `String(valA).localeCompare(String(valB))` otherwise.
`localeCompare` is the platform's collation; it enters as the abstract
parameter `lc`. -/
def recordCmp (lc : String → String → ℤ) (key : SortKey) (a b : Record) : ℚ :=
  match key with
  | .amount => a.amount - b.amount
  | k => ((lc (strField a k) (strField b k) : ℤ) : ℚ)

/-- The comparator after the direction adjustment
`direction === 'asc' ? comparison : comparison * -1`. -/
def cmpWithDirection (lc : String → String → ℤ) (key : SortKey)
    (direction : String) (a b : Record) : ℚ :=
  if direction = "asc" then recordCmp lc key a b else -(recordCmp lc key a b)

/-- Strictly-before relation the stable sort uses: the comparator is
negative. -/
def recordLT (lc : String → String → ℤ) (key : SortKey) (direction : String)
    (a b : Record) : Bool :=
  decide (cmpWithDirection lc key direction a b < 0)

/-- Stable insertion: `x` goes after every already-placed element that is
strictly before it, hence before the first element that ties with or
follows it — the position the ECMAScript stable `Array.prototype.sort`
gives an element that preceded the others in the input. -/
def stableInsert {α : Type} (lt : α → α → Bool) (x : α) : List α → List α
  | [] => [x]
  | y :: ys => if lt y x then y :: stableInsert lt x ys else x :: y :: ys

/-- Stable sort.  For a consistent comparator the ECMAScript specification
pins the result down uniquely (sorted, ties in input order); this insertion
sort realises that unique result. -/
def stableSort {α : Type} (lt : α → α → Bool) : List α → List α
  | [] => []
  | x :: xs => stableInsert lt x (stableSort lt xs)

/-- Model of `sortRecords(recordsArray, key, direction)`. -/
def sortRecords (lc : String → String → ℤ) (recordsArray : List Record)
    (key : SortKey) (direction : String) : List Record :=
  stableSort (recordLT lc key direction) recordsArray

/-- Codepoint comparison of character lists: the three-way lexicographic
order every real locale's `localeCompare` realises on plain lowercase ASCII
strings (used to instantiate the abstract collation parameter on concrete
inputs). -/
def lexCmp : List Char → List Char → ℤ
  | [], [] => 0
  | [], _ :: _ => -1
  | _ :: _, [] => 1
  | a :: as, b :: bs =>
    if a.toNat < b.toNat then -1
    else if b.toNat < a.toNat then 1
    else lexCmp as bs

/-- Codepoint comparison at the `String` level. -/
def lexCmpS (a b : String) : ℤ := lexCmp a.data b.data

/-- Settings as the state module reads them (`settings.budgetCap` may be
absent). -/
structure Settings where
  budgetCap : Option ℚ
deriving DecidableEq

/-- The module-scope state of the state module. -/
structure StoreState where
  records : List Record
  sortKey : SortKey
  sortDirection : String
  settings : Settings
deriving DecidableEq

/-- Model of `parseFloat` on the strings the validated form hands to the
store: the exact rational value for a string the amount pattern accepts
(the only strings that reach `addRecord`/`updateRecord` in the
application). -/
def parseFloatQ (s : String) : ℚ :=
  if amountRegexOK s.data then (amountCents s.data : ℚ) / 100 else 0

/-- Model of `addRecord(recordData)`: build the new record, `unshift` it,
re-sort by the current sort, persist.  Returns the created record, the new
state and the persistence signal. -/
def addRecord (lc : String → String → ℤ) (st : StoreState) (recordData : FormData)
    (freshId nowIso : String) : Record × StoreState × Bool :=
  let newRecord : Record :=
    { id := freshId
      description := jsTrimS recordData.description
      amount := parseFloatQ recordData.amount
      category := recordData.category
      date := recordData.date
      createdAt := nowIso
      updatedAt := nowIso }
  (newRecord,
    { st with records :=
        sortRecords lc (newRecord :: st.records) st.sortKey st.sortDirection },
    true)

/-- Replace the first record with the given id using `upd`, or `none` when
no record has it (the `findIndex`/index-assignment pair of
`updateRecord`). -/
def updateFirstById (upd : Record → Record) (id : String) :
    List Record → Option (Record × List Record)
  | [] => none
  | r :: rs =>
    if r.id = id then some (upd r, upd r :: rs)
    else
      match updateFirstById upd id rs with
      | some (u, rs') => some (u, r :: rs')
      | none => none

/-- Model of `updateRecord(id, recordData)`: `null` and an untouched state
when the id is absent; otherwise the record is replaced (keeping `id` and
`createdAt`), the collection re-sorted and persisted. -/
def updateRecord (lc : String → String → ℤ) (st : StoreState) (id : String)
    (recordData : FormData) (nowIso : String) :
    Option Record × StoreState × Bool :=
  match updateFirstById
      (fun r =>
        { r with
          description := jsTrimS recordData.description
          amount := parseFloatQ recordData.amount
          category := recordData.category
          date := recordData.date
          updatedAt := nowIso }) id st.records with
  | none => (none, st, false)
  | some (u, l) =>
    (some u, { st with records := sortRecords lc l st.sortKey st.sortDirection },
      true)

/-- Model of `deleteRecord(id)`: `null` and an untouched state when the id
is absent; otherwise the first matching record is returned and every record
with that id removed and the rest persisted (no re-sort). -/
def deleteRecord (st : StoreState) (id : String) :
    Option Record × StoreState × Bool :=
  match st.records.find? (fun r => r.id == id) with
  | none => (none, st, false)
  | some r =>
    (some r, { st with records := st.records.filter (fun x => !(x.id == id)) },
      true)

/-- Result record of `getBudgetInfo`. -/
structure BudgetInfo where
  budgetCap : ℚ
  totalSpent : ℚ
  remaining : ℚ
  isOverBudget : Bool
deriving DecidableEq

/-- Model of `getBudgetInfo()`: `budgetCap || 0`, the summed amounts, the
absolute remaining value and the over-budget flag.  The reduce over exact
rationals stands for the float sum; the claim only relates the outputs to
each other, which holds for whatever number the sum produced. -/
def getBudgetInfo (st : StoreState) : BudgetInfo :=
  let totalSpent := (st.records.map Record.amount).sum
  let budgetCap := st.settings.budgetCap.getD 0
  { budgetCap := budgetCap
    totalSpent := totalSpent
    remaining := |budgetCap - totalSpent|
    isOverBudget := decide (budgetCap - totalSpent < 0) }

/-! ## The search module: `compileRegex`

The platform regular-expression engine is embedded for the pattern fragment
the repository's compile paths exercise: literal characters, `.`,
alternation `|`, grouping `(...)`, the postfix quantifiers `* + ?` and
escaped punctuation.  A pattern using a construct outside the fragment
(character classes, anchors, alphanumeric escapes such as `\d` or a
backreference) is not compiled by the model; every pattern the claims
mention stays inside the fragment.  Syntax errors — in particular an
unterminated group — make the parse fail, which `compileRegex` maps to
`null` exactly as the `try`/`catch` of the source does. -/

/-- Abstract syntax of the embedded regex fragment. -/
inductive RE where
  | emp
  | eps
  | chr (c : Char)
  | dot
  | alt (r s : RE)
  | cat (r s : RE)
  | star (r : RE)
deriving DecidableEq

/-- Does the expression match the empty string? -/
def RE.nullable : RE → Bool
  | .emp => false
  | .eps => true
  | .chr _ => false
  | .dot => false
  | .alt r s => r.nullable || s.nullable
  | .cat r s => r.nullable && s.nullable
  | .star _ => true

/-- Brzozowski derivative with respect to one input character.  The
metacharacter `.` matches everything but a line terminator. -/
def RE.deriv : RE → Char → RE
  | .emp, _ => .emp
  | .eps, _ => .emp
  | .chr c, a => if c = a then .eps else .emp
  | .dot, a => if jsLineTerminator a then .emp else .eps
  | .alt r s, a => .alt (r.deriv a) (s.deriv a)
  | .cat r s, a =>
    if r.nullable then .alt (.cat (r.deriv a) s) (s.deriv a)
    else .cat (r.deriv a) s
  | .star r, a => .cat (r.deriv a) (.star r)

/-- Does some prefix of the list match the expression? -/
def matchesPrefix (r : RE) : List Char → Bool
  | [] => r.nullable
  | c :: cs => r.nullable || matchesPrefix (r.deriv c) cs

/-- Does some substring match the expression — the `RegExp.prototype.test`
question (from lastIndex 0)? -/
def matchesSomewhere (r : RE) : List Char → Bool
  | [] => r.nullable
  | c :: cs => matchesPrefix r (c :: cs) || matchesSomewhere r cs

mutual

/-- Parse one atom: a group, an escaped punctuation character, `.`, or a
literal character.  Constructs outside the fragment fail.  The fuel bounds
the recursion through groups. -/
def parseAtom : ℕ → List Char → Option (RE × List Char)
  | 0, _ => none
  | fuel + 1, l =>
    match l with
    | [] => none
    | c :: rest =>
      if c = '(' then
        match parseAlternation fuel rest with
        | some (r, ')' :: rest') => some (r, rest')
        | _ => none
      else if c = '\\' then
        match rest with
        | [] => none
        | e :: rest' => if isWordChar e then none else some (.chr e, rest')
      else if c = '.' then some (.dot, rest)
      else if c = ')' || c = '|' || c = '*' || c = '+' || c = '?' || c = '[' ||
          c = ']' || c = '{' || c = '}' || c = '^' || c = '$' then none
      else some (.chr c, rest)

/-- Parse one atom with an optional postfix quantifier. -/
def parseQuantified : ℕ → List Char → Option (RE × List Char)
  | 0, _ => none
  | fuel + 1, l =>
    match parseAtom fuel l with
    | none => none
    | some (r, rest) =>
      match rest with
      | '*' :: t => some (.star r, t)
      | '+' :: t => some (.cat r (.star r), t)
      | '?' :: t => some (.alt r .eps, t)
      | _ => some (r, rest)

/-- Parse a concatenation: a run of quantified atoms, ending at `)` or `|`
or the end of the pattern (an empty run is the empty-string expression). -/
def parseConcat : ℕ → List Char → Option (RE × List Char)
  | 0, _ => none
  | fuel + 1, l =>
    match l with
    | [] => some (.eps, [])
    | c :: _ =>
      if c = ')' || c = '|' then some (.eps, l)
      else
        match parseQuantified fuel l with
        | none => none
        | some (r, rest) =>
          match parseConcat fuel rest with
          | none => none
          | some (s, rest') => some (.cat r s, rest')

/-- Parse an alternation, the top level of the pattern grammar. -/
def parseAlternation : ℕ → List Char → Option (RE × List Char)
  | 0, _ => none
  | fuel + 1, l =>
    match parseConcat fuel l with
    | none => none
    | some (r, '|' :: t) =>
      match parseAlternation fuel t with
      | none => none
      | some (s, rest') => some (.alt r s, rest')
    | some (r, rest) => some (r, rest)

end

/-- Parse a whole pattern; a parse that fails or leaves input (an unmatched
`)`) is a syntax error. -/
def parsePattern (l : List Char) : Option RE :=
  match parseAlternation (8 * l.length + 8) l with
  | some (r, []) => some r
  | _ => none

/-- A compiled matcher: the parsed pattern and its flags (the `i` flag
drives case folding; `g` is always added by `compileRegex` and only
matters for the stateful `lastIndex`, which single-shot matching does not
observe). -/
structure CompiledRegex where
  ast : RE
  flags : String
deriving DecidableEq

/-- Case-fold the literal characters of a pattern (the `i` flag). -/
def RE.mapCase : RE → RE
  | .emp => .emp
  | .eps => .eps
  | .chr c => .chr (toLowerAscii c)
  | .dot => .dot
  | .alt r s => .alt r.mapCase s.mapCase
  | .cat r s => .cat r.mapCase s.mapCase
  | .star r => .star r.mapCase

/-- Model of `regex.test(s)` for a compiled matcher. -/
def regexTestJs (m : CompiledRegex) (s : String) : Bool :=
  if m.flags.data.contains 'i' then
    matchesSomewhere m.ast.mapCase (s.data.map toLowerAscii)
  else
    matchesSomewhere m.ast s.data

/-- The pattern text `compileRegex` compiles: the input trimmed, and with
one leading and one trailing slash removed when the trimmed text both
starts and ends with `/`. -/
def strippedPattern (input : String) : List Char :=
  let pattern := jsTrim input.data
  if pattern.head? = some '/' && pattern.getLast? = some '/' then
    (pattern.drop 1).dropLast
  else pattern

/-- Model of `compileRegex(input, flags)` (default flags `"i"`): `null` for
an empty input, an empty-after-stripping pattern, or a pattern the engine
rejects; otherwise the compiled matcher with the `g` flag ensured. -/
def compileRegex (input : String) (flags : String) : Option CompiledRegex :=
  if input = "" then none
  else
    let pattern := strippedPattern input
    if pattern.isEmpty then none
    else
      let flags' := if flags.data.contains 'g' then flags else flags ++ "g"
      match parsePattern pattern with
      | some r => some ⟨r, flags'⟩
      | none => none

/-! ## `sanitizeInput` of the validators module

Each `String.prototype.replace(regex, rep)` with a global regex is embedded
by a left-to-right scanner: at every position it either recognises a match
of the pattern (a length the matcher reports), emits the replacement and
continues after the match, or keeps the character.  Replacements are not
rescanned, exactly as `replace` works. -/

/-- One replace pass.  `f l` returns `some n` when a match of length
`n + 1` starts at `l` (the `+ 1` keeps every match non-empty, as all the
patterns of `sanitizeInput` are). -/
def scanReplace (f : List Char → Option ℕ) (rep : List Char) :
    List Char → List Char
  | [] => []
  | c :: cs =>
    match f (c :: cs) with
    | some n => rep ++ scanReplace f rep (cs.drop n)
    | none => c :: scanReplace f rep cs
termination_by l => l.length
decreasing_by
  · simp only [List.length_cons, List.length_drop]
    omega
  · simp

/-- Matcher of `[<>]`. -/
def matchAngle : List Char → Option ℕ
  | c :: _ => if c = '<' || c = '>' then some 0 else none
  | [] => none

/-- Case-insensitive prefix test. -/
def ciPrefixTest (p l : List Char) : Bool :=
  ciEqList p (l.take p.length) && decide (p.length ≤ l.length)

/-- Matcher of `javascript:` with the `i` flag (11 characters). -/
def matchJsProtocol (l : List Char) : Option ℕ :=
  if ciPrefixTest "javascript:".data l then some 10 else none

/-- Matcher of `on\w+\s*=` with the `i` flag: `on` in any case, a maximal
non-empty run of word characters, a maximal run of whitespace, then `=`.
(The runs are forced maximal because a shorter word run would have to be
followed by a word character, which is neither whitespace nor `=`.) -/
def matchEventHandler : List Char → Option ℕ
  | c1 :: c2 :: rest =>
    if toLowerAscii c1 = 'o' && toLowerAscii c2 = 'n' then
      let k := (rest.takeWhile isWordChar).length
      if k = 0 then none
      else
        let j := ((rest.drop k).takeWhile jsWhitespaceChar).length
        match (rest.drop k).drop j with
        | '=' :: _ => some (1 + k + j + 1)
        | _ => none
    else none
  | _ => none

/-- Matcher of a single literal character. -/
def matchChar (t : Char) : List Char → Option ℕ
  | c :: _ => if c = t then some 0 else none
  | [] => none

/-- Model of `sanitizeInput(input)`: remove angle brackets, remove
`javascript:` protocols, remove inline event-handler patterns, escape
`&`, `"`, `'` and `/`, then trim. -/
def sanitizeInput (s : String) : String :=
  String.mk (jsTrim
    (scanReplace (matchChar '/') "&#x2F;".data
      (scanReplace (matchChar '\'') "&#x27;".data
        (scanReplace (matchChar '"') "&quot;".data
          (scanReplace (matchChar '&') "&amp;".data
            (scanReplace matchEventHandler []
              (scanReplace matchJsProtocol []
                (scanReplace matchAngle [] s.data))))))))

/-! ## `importData` of `scripts/storage.js`

`JSON.parse` is the platform's parser; its outcome enters the model as an
`Option Json` (`none` when the text is not JSON, in which case the thrown
`SyntaxError` is caught and turned into the failure result).  A `null`
array element makes the source throw a `TypeError` at `record.id`, caught
by the same handler; the model folds that path into the same failure
result, whose `success`/`data` fields the claim is about (only the
`message` text differs). -/

/-- JSON values. -/
inductive Json where
  | null
  | bool (b : Bool)
  | num (q : ℚ)
  | str (s : String)
  | arr (elems : List Json)
  | obj (fields : List (String × Json))

/-- Member access `value[key]` on a parsed JSON value: the last binding of
the key for an object (as `JSON.parse` keeps), `undefined` (`none`)
otherwise. -/
def jsMember (j : Json) (k : String) : Option Json :=
  match j with
  | .obj fields => fields.reverse.lookup k
  | _ => none

/-- JavaScript truthiness of a possibly-absent parsed value. -/
def jsTruthy : Option Json → Bool
  | none => false
  | some .null => false
  | some (.bool b) => b
  | some (.num q) => decide (q ≠ 0)
  | some (.str s) => decide (s ≠ "")
  | some (.arr _) => true
  | some (.obj _) => true

/-- The test `typeof record.description === 'string'`. -/
def isStringMember (j : Json) (k : String) : Bool :=
  match jsMember j k with
  | some (.str _) => true
  | _ => false

/-- The test `typeof record.amount === 'number'`. -/
def isNumberMember (j : Json) (k : String) : Bool :=
  match jsMember j k with
  | some (.num _) => true
  | _ => false

/-- The per-element structural check of `importData`. -/
def validImportRecord (j : Json) : Bool :=
  jsTruthy (jsMember j "id") && isStringMember j "description" &&
  isNumberMember j "amount" && jsTruthy (jsMember j "date") &&
  jsTruthy (jsMember j "category")

/-- Result record of `importData`. -/
structure ImportResult where
  success : Bool
  data : Option (List Json)
  message : String

/-- Model of `importData(jsonString)` over the outcome of `JSON.parse`. -/
def importData (parsed : Option Json) : ImportResult :=
  match parsed with
  | none => ⟨false, none, "Unexpected token in JSON"⟩
  | some (Json.arr []) =>
    ⟨true, some [], "Import successful but no records were found."⟩
  | some (Json.arr l) =>
    if l.all validImportRecord then
      ⟨true, some l, "Successfully imported " ++ toString l.length ++ " records."⟩
    else ⟨false, none, "JSON structure is invalid or missing required fields."⟩
  | some _ => ⟨false, none, "Data must be an array."⟩

/-! ## Helper lemmas -/

theorem jsWhitespaceChar_toNat (c : Char) (h : jsWhitespaceChar c = true) :
    c.toNat = 32 ∨ c.toNat = 9 ∨ c.toNat = 10 ∨ c.toNat = 13 ∨ c.toNat = 11 ∨
      c.toNat = 12 ∨ c.toNat = 160 ∨ c.toNat = 8232 ∨ c.toNat = 8233 ∨
      c.toNat = 65279 := by
  unfold jsWhitespaceChar at h
  simp only [Bool.or_eq_true, decide_eq_true_eq] at h
  rcases h with (((((((((h | h) | h) | h) | h) | h) | h) | h) | h) | h) <;>
    subst h <;> decide

theorem not_ws_of_digit_or_sep (c : Char)
    (h : isDigitChar c = true ∨ c = '.' ∨ c = '-') :
    jsWhitespaceChar c = false := by
  by_contra hw
  have hw' := jsWhitespaceChar_toNat c (by revert hw; cases jsWhitespaceChar c <;> simp)
  rcases h with h | h | h
  · unfold isDigitChar at h
    simp only [Bool.and_eq_true, decide_eq_true_eq] at h
    omega
  · subst h; revert hw'; decide
  · subst h; revert hw'; decide

theorem jsTrim_eq_self (l : List Char)
    (h : ∀ c ∈ l, jsWhitespaceChar c = false) : jsTrim l = l := by
  unfold jsTrim
  have h1 : l.dropWhile jsWhitespaceChar = l := by
    cases l with
    | nil => rfl
    | cons c cs =>
      rw [List.dropWhile_cons, h c (by simp)]
      simp
  rw [h1]
  have h2 : l.reverse.dropWhile jsWhitespaceChar = l.reverse := by
    cases hrev : l.reverse with
    | nil => rfl
    | cons c cs =>
      rw [List.dropWhile_cons, h c (by rw [← List.mem_reverse, hrev]; simp)]
      simp
  rw [h2, List.reverse_reverse]

theorem splitAtDot_eq_none (l a : List Char) (h : splitAtDot l = (a, none)) :
    l = a := by
  induction l generalizing a with
  | nil => simpa [splitAtDot] using congrArg Prod.fst h
  | cons c rest ih =>
    unfold splitAtDot at h
    by_cases hc : c = '.'
    · rw [if_pos hc] at h; exact absurd (congrArg Prod.snd h) (by simp)
    · rw [if_neg hc] at h
      cases hp : splitAtDot rest with
      | mk a' o =>
        rw [hp] at h
        cases o with
        | none =>
          have h1 : c :: a' = a := congrArg Prod.fst h
          rw [← h1, ih a' hp]
        | some b => exact absurd (congrArg Prod.snd h) (by simp)

theorem splitAtDot_eq_some (l a b : List Char)
    (h : splitAtDot l = (a, some b)) : l = a ++ '.' :: b := by
  induction l generalizing a b with
  | nil => exact absurd (congrArg Prod.snd h) (by simp [splitAtDot])
  | cons c rest ih =>
    unfold splitAtDot at h
    by_cases hc : c = '.'
    · rw [if_pos hc] at h
      injection h with h1 h2
      injection h2 with h2
      subst h1; subst h2; subst hc
      rfl
    · rw [if_neg hc] at h
      cases hp : splitAtDot rest with
      | mk a' o =>
        rw [hp] at h
        cases o with
        | none => exact absurd (congrArg Prod.snd h) (by simp)
        | some b' =>
          have h1 : c :: a' = a := congrArg Prod.fst h
          have h2 : b' = b := by simpa using congrArg Prod.snd h
          subst h2
          rw [← h1, ih a' b' hp]
          rfl

theorem amountIntPartOK_chars (a : List Char) (h : amountIntPartOK a = true) :
    ∀ c ∈ a, isDigitChar c = true := by
  cases a with
  | nil => simp
  | cons c cs =>
    replace h : (if c = '0' then cs.isEmpty
        else decide (49 ≤ c.toNat) && decide (c.toNat ≤ 57) &&
          cs.all isDigitChar) = true := h
    by_cases hc : c = '0'
    · rw [if_pos hc] at h
      intro x hx
      rw [List.mem_cons] at hx
      rcases hx with hx | hx
      · subst hx; subst hc; decide
      · rw [List.isEmpty_iff] at h; subst h; simp at hx
    · rw [if_neg hc] at h
      simp only [Bool.and_eq_true, decide_eq_true_eq, List.all_eq_true] at h
      intro x hx
      rw [List.mem_cons] at hx
      rcases hx with hx | hx
      · subst hx
        unfold isDigitChar
        simp only [Bool.and_eq_true, decide_eq_true_eq]
        omega
      · exact h.2 x hx

theorem amountRegexOK_chars (l : List Char) (h : amountRegexOK l = true) :
    ∀ c ∈ l, isDigitChar c = true ∨ c = '.' := by
  unfold amountRegexOK at h
  cases hp : splitAtDot l with
  | mk ip o =>
    rw [hp] at h
    cases o with
    | none =>
      rw [splitAtDot_eq_none l ip hp]
      intro c hc
      exact Or.inl (amountIntPartOK_chars ip h c hc)
    | some fr =>
      simp only [Bool.and_eq_true] at h
      rw [splitAtDot_eq_some l ip fr hp]
      intro c hc
      rw [List.mem_append, List.mem_cons] at hc
      rcases hc with hc | hc | hc
      · exact Or.inl (amountIntPartOK_chars ip h.1 c hc)
      · subst hc; exact Or.inr rfl
      · have h2 := h.2
        unfold amountFracOK at h2
        simp only [Bool.and_eq_true, List.all_eq_true] at h2
        exact Or.inl (h2.2 c hc)

theorem requiredFail_false_of_amountRegexOK (l : List Char)
    (h : amountRegexOK l = true) : requiredFail l = false := by
  have hne : l ≠ [] := by
    intro he; subst he; revert h; decide
  have hchars : ∀ c ∈ l, jsWhitespaceChar c = false := by
    intro c hc
    rcases amountRegexOK_chars l h c hc with h1 | h1
    · exact not_ws_of_digit_or_sep c (Or.inl h1)
    · exact not_ws_of_digit_or_sep c (Or.inr (Or.inl h1))
  unfold requiredFail
  rw [jsTrim_eq_self l hchars]
  simp [hne]

theorem dateRegexOK_chars (l : List Char) (h : dateRegexOK l = true) :
    ∀ c ∈ l, isDigitChar c = true ∨ c = '-' := by
  unfold dateRegexOK at h
  rcases l with _ | ⟨y1, _ | ⟨y2, _ | ⟨y3, _ | ⟨y4, _ | ⟨h1, _ | ⟨m1, _ | ⟨m2,
    _ | ⟨h2, _ | ⟨d1, _ | ⟨d2, _ | ⟨e, rest⟩⟩⟩⟩⟩⟩⟩⟩⟩⟩⟩ <;> simp at h
  obtain ⟨⟨⟨⟨⟨⟨⟨hy1, hy2⟩, hy3⟩, hy4⟩, hh1⟩, hh2⟩, hm⟩, hd⟩ := h
  have hm1 : isDigitChar m1 = true := by
    unfold dateMonthOK at hm
    simp only [Bool.or_eq_true, Bool.and_eq_true, decide_eq_true_eq] at hm
    rcases hm with ⟨⟨hm, _⟩, _⟩ | ⟨⟨hm, _⟩, _⟩ <;> subst hm <;> decide
  have hm2 : isDigitChar m2 = true := by
    unfold dateMonthOK at hm
    simp only [Bool.or_eq_true, Bool.and_eq_true, decide_eq_true_eq] at hm
    unfold isDigitChar
    simp only [Bool.and_eq_true, decide_eq_true_eq]
    rcases hm with ⟨⟨_, hma⟩, hmb⟩ | ⟨⟨_, hma⟩, hmb⟩ <;> omega
  have hd1 : isDigitChar d1 = true := by
    unfold dateDayOK at hd
    simp only [Bool.or_eq_true, Bool.and_eq_true, decide_eq_true_eq] at hd
    rcases hd with (⟨⟨hd, _⟩, _⟩ | ⟨hd | hd, _⟩) | ⟨hd, _⟩ <;> subst hd <;> decide
  have hd2 : isDigitChar d2 = true := by
    unfold dateDayOK at hd
    simp only [Bool.or_eq_true, Bool.and_eq_true, decide_eq_true_eq] at hd
    rcases hd with (⟨⟨_, hda⟩, hdb⟩ | ⟨_, hd⟩) | ⟨_, hd | hd⟩
    · unfold isDigitChar
      simp only [Bool.and_eq_true, decide_eq_true_eq]
      omega
    · exact hd
    · subst hd; decide
    · subst hd; decide
  subst hh1; subst hh2
  intro c hc
  simp only [List.mem_cons, List.not_mem_nil, or_false] at hc
  rcases hc with hc | hc | hc | hc | hc | hc | hc | hc | hc | hc <;> subst hc
  · exact Or.inl hy1
  · exact Or.inl hy2
  · exact Or.inl hy3
  · exact Or.inl hy4
  · exact Or.inr rfl
  · exact Or.inl hm1
  · exact Or.inl hm2
  · exact Or.inr rfl
  · exact Or.inl hd1
  · exact Or.inl hd2

theorem requiredFail_false_of_dateRegexOK (l : List Char)
    (h : dateRegexOK l = true) : requiredFail l = false := by
  have hne : l ≠ [] := by
    intro he; subst he; revert h; decide
  have hchars : ∀ c ∈ l, jsWhitespaceChar c = false := by
    intro c hc
    rcases dateRegexOK_chars l h c hc with h1 | h1
    · exact not_ws_of_digit_or_sep c (Or.inl h1)
    · exact not_ws_of_digit_or_sep c (Or.inr (Or.inr h1))
  unfold requiredFail
  rw [jsTrim_eq_self l hchars]
  simp [hne]

/-! ## C3: the description message for surrounding whitespace -/

/-- C3 (counterexample): validating the description `" pizza "` fails, but
the message is the generic `"Invalid format."` of `getValidationMessage`,
not the whitespace-specific message — the special-handling branch retests
the regex on the trimmed value, which passes for `" pizza "`, so the
generic rule-lookup message is returned. -/
theorem validateField_description_space_pizza_message :
    validateField .description " pizza ".data = (false, "Invalid format.") ∧
      "Invalid format." ≠ "Description cannot have leading or trailing spaces." := by
  decide

/-- C3 (amended): validating `" pizza "` (leading and trailing space) fails
with the generic format message `"Invalid format."` — distinct from the
required-but-empty message and from the whitespace-specific message — while
validating `"pizza"` passes.  Surrounding whitespace never produces the
whitespace-specific message (the special branch retests the regex on the
trimmed value, which passes for `" pizza "`); that message is produced
when the trimmed value itself still fails the regex, as for a description
with an interior line terminator. -/
theorem validateField_description_space_pizza :
    validateField .description " pizza ".data = (false, "Invalid format.") ∧
      validateField .description "pizza".data = (true, "") ∧
      validateField .description "a\nb".data =
        (false, "Description cannot have leading or trailing spaces.") ∧
      "Invalid format." ≠ "This field is required." ∧
      "Invalid format." ≠ "Description cannot have leading or trailing spaces." := by
  decide

/-! ## C9: not-found update and delete are no-ops -/

theorem updateFirstById_eq_none (upd : Record → Record) (id : String)
    (l : List Record) (h : ∀ r ∈ l, r.id ≠ id) :
    updateFirstById upd id l = none := by
  induction l with
  | nil => rfl
  | cons r rs ih =>
    unfold updateFirstById
    rw [if_neg (h r (by simp))]
    rw [ih (fun x hx => h x (by simp [hx]))]

/-- C9: for an id no record carries, `updateRecord` and `deleteRecord`
return the not-found signal `null`, leave the state (records and current
sort order) untouched, and perform no persistence write. -/
theorem updateRecord_deleteRecord_notFound (lc : String → String → ℤ)
    (st : StoreState) (id : String) (recordData : FormData) (nowIso : String)
    (h : ∀ r ∈ st.records, r.id ≠ id) :
    updateRecord lc st id recordData nowIso = (none, st, false) ∧
      deleteRecord st id = (none, st, false) := by
  constructor
  · unfold updateRecord
    rw [updateFirstById_eq_none _ _ _ h]
  · unfold deleteRecord
    have hfind : st.records.find? (fun r => r.id == id) = none := by
      rw [List.find?_eq_none]
      intro x hx
      simpa using h x hx
    rw [hfind]

/-- C9 (witness): the not-found paths at a concrete one-record store. -/
theorem updateRecord_deleteRecord_notFound_witness :
    updateRecord (fun _ _ => 0)
        ⟨[⟨"txn_1", "lunch", 5, "Food", "2026-10-01", "t", "t"⟩], .date, "desc",
          ⟨some 1000⟩⟩ "txn_2" ⟨"x", "1", "2026-10-02", "Food"⟩ "t2" =
        (none,
          ⟨[⟨"txn_1", "lunch", 5, "Food", "2026-10-01", "t", "t"⟩], .date,
            "desc", ⟨some 1000⟩⟩,
          false) ∧
      deleteRecord
          ⟨[⟨"txn_1", "lunch", 5, "Food", "2026-10-01", "t", "t"⟩], .date,
            "desc", ⟨some 1000⟩⟩ "txn_2" =
        (none,
          ⟨[⟨"txn_1", "lunch", 5, "Food", "2026-10-01", "t", "t"⟩], .date,
            "desc", ⟨some 1000⟩⟩,
          false) :=
  updateRecord_deleteRecord_notFound (fun _ _ => 0) _ "txn_2" ⟨"x", "1", "2026-10-02", "Food"⟩ "t2"
    (by decide)

/-! ## C8: budget information -/

/-- C8: `getBudgetInfo` returns `remaining` equal to the absolute value of
`budgetCap - totalSpent` (with `totalSpent` the sum of all record amounts
and `budgetCap` the stored cap defaulted to `0`), and `isOverBudget` true
exactly when `totalSpent` exceeds `budgetCap`; at `budgetCap = 100` and
`totalSpent = 150` it returns `remaining = 50` and `isOverBudget = true`. -/
theorem getBudgetInfo_spec :
    (∀ st : StoreState,
        (getBudgetInfo st).remaining =
            |(getBudgetInfo st).budgetCap - (getBudgetInfo st).totalSpent| ∧
          ((getBudgetInfo st).isOverBudget = true ↔
            (getBudgetInfo st).budgetCap < (getBudgetInfo st).totalSpent) ∧
          (getBudgetInfo st).totalSpent = (st.records.map Record.amount).sum ∧
          (getBudgetInfo st).budgetCap = st.settings.budgetCap.getD 0) ∧
      getBudgetInfo
          ⟨[⟨"a", "books", 100, "Books", "2026-10-01", "t", "t"⟩,
            ⟨"b", "food", 50, "Food", "2026-10-02", "t", "t"⟩], .date, "desc",
            ⟨some 100⟩⟩ =
        ⟨100, 150, 50, true⟩ := by
  constructor
  · intro st
    refine ⟨rfl, ?_, rfl, rfl⟩
    unfold getBudgetInfo
    simp only [decide_eq_true_eq]
    exact sub_neg
  · unfold getBudgetInfo
    simp only [List.map_cons, List.map_nil, List.sum_cons, List.sum_nil,
      Option.getD_some, BudgetInfo.mk.injEq]
    refine ⟨trivial, by norm_num, ?_, ?_⟩
    · rw [show (100 : ℚ) - (100 + (50 + 0)) = -50 by norm_num, abs_neg,
        abs_of_nonneg (by norm_num)]
    · rw [decide_eq_true_eq]
      norm_num

/-! ## C5: the import contract -/

/-- C5: `importData` succeeds exactly on parses that are arrays whose every
element passes the structural check (the empty array included); the
returned data is the whole parsed array on success and nothing on
failure. -/
theorem importData_spec :
    ∀ parsed : Option Json,
      ((importData parsed).success = true ↔
          ∃ l : List Json, parsed = some (Json.arr l) ∧
            l.all validImportRecord = true) ∧
        ((importData parsed).data.isSome ↔ (importData parsed).success = true) ∧
        (∀ l : List Json, parsed = some (Json.arr l) →
          (importData parsed).success = true → (importData parsed).data = some l) := by
  intro parsed
  cases parsed with
  | none =>
    refine ⟨by simp [importData], by simp [importData], ?_⟩
    intro l h
    exact absurd h (by simp)
  | some j =>
    cases j with
    | arr l =>
      cases l with
      | nil =>
        refine ⟨by simp [importData], by simp [importData], ?_⟩
        intro l h _
        simp only [Option.some.injEq, Json.arr.injEq] at h
        subst h
        rfl
      | cons x xs =>
        have hred : importData (some (Json.arr (x :: xs))) =
            if (x :: xs).all validImportRecord then
              ⟨true, some (x :: xs),
                "Successfully imported " ++ toString (x :: xs).length ++ " records."⟩
            else
              ⟨false, none, "JSON structure is invalid or missing required fields."⟩ := rfl
        by_cases hall : (x :: xs).all validImportRecord = true
        · rw [hred, if_pos hall]
          refine ⟨⟨fun _ => ⟨x :: xs, rfl, hall⟩, fun _ => rfl⟩, by simp, ?_⟩
          intro l h _
          simp only [Option.some.injEq, Json.arr.injEq] at h
          subst h
          rfl
        · rw [hred, if_neg hall]
          refine ⟨?_, by simp, ?_⟩
          · constructor
            · intro hfalse; exact absurd hfalse (by simp)
            · rintro ⟨l, hl, hl2⟩
              simp only [Option.some.injEq, Json.arr.injEq] at hl
              subst hl
              exact absurd hl2 hall
          · intro l h hsucc
            simp only [Option.some.injEq, Json.arr.injEq] at h
            subst h
            exact absurd hsucc (by simp)
    | null =>
      refine ⟨by simp [importData], by simp [importData], ?_⟩
      intro l h
      exact absurd h (by simp)
    | bool b =>
      refine ⟨by simp [importData], by simp [importData], ?_⟩
      intro l h
      exact absurd h (by simp)
    | num q =>
      refine ⟨by simp [importData], by simp [importData], ?_⟩
      intro l h
      exact absurd h (by simp)
    | str s =>
      refine ⟨by simp [importData], by simp [importData], ?_⟩
      intro l h
      exact absurd h (by simp)
    | obj fields =>
      refine ⟨by simp [importData], by simp [importData], ?_⟩
      intro l h
      exact absurd h (by simp)

/-! ## C1: amount validation -/

theorem validateField_amount_true (l : List Char) (h : amountRegexOK l = true) :
    validateField .amount l = (true, "") := by
  unfold validateField
  rw [requiredFail_false_of_amountRegexOK l h]
  simp [regexTestOf, h]

theorem validateField_amount_false (l : List Char)
    (h : amountRegexOK l = false) : (validateField .amount l).1 = false := by
  unfold validateField
  by_cases hrq : requiredFail l
  · simp [hrq]
  · simp [hrq, regexTestOf, h]

theorem validateFormAmountError_eq_none_iff (s : String) :
    validateFormAmountError s = none ↔
      (amountRegexOK s.data = true ∧ 0 < amountCents s.data ∧
        amountCents s.data ≤ 99999999) := by
  by_cases hs : s = ""
  · subst hs; decide
  · unfold validateFormAmountError
    rw [if_neg hs]
    by_cases hre : amountRegexOK s.data = true
    · have hreq := requiredFail_false_of_amountRegexOK s.data hre
      rw [validateField_amount_true s.data hre]
      simp only [Bool.not_true, Bool.false_eq_true, if_false]
      by_cases h0 : amountCents s.data = 0
      · simp [h0]
      · by_cases hbig : 99999999 < amountCents s.data
        · simp only [h0, if_false, hbig, if_true]
          simp only [hre, true_and]
          constructor
          · intro hcon; exact absurd hcon (by simp)
          · intro hcon; omega
        · simp only [h0, if_false, hbig, if_true]
          unfold requiredError
          rw [hreq]
          simp only [Bool.false_eq_true, if_false]
          constructor
          · intro _; exact ⟨hre, by omega, by omega⟩
          · intro _; trivial
    · have hvf := validateField_amount_false s.data (by simpa using hre)
      simp only [hvf, Bool.not_false, if_true]
      constructor
      · intro hcon; exact absurd hcon (by simp)
      · intro hcon; exact absurd hcon.1 hre

/-- C1: an amount string passes `validateForm` exactly when it matches the
amount pattern (integer with no leading zero, or `0`, with an optional
point and one or two decimals) and its parsed value is strictly positive
and at most `999999.99`; in particular `"12.34"` passes, `"12.345"` fails
the pattern, `"0"` matches the pattern but fails the positivity check, and
`"1000000"` fails the upper bound. -/
theorem validateForm_amount_spec :
    (∀ fd : FormData, ∀ now : NowClock,
        ((validateForm fd now).errors.amount = none ↔
          (amountRegexOK fd.amount.data = true ∧ 0 < amountCents fd.amount.data ∧
            amountCents fd.amount.data ≤ 99999999))) ∧
      validateFormAmountError "12.34" = none ∧
      validateFormAmountError "12.345" =
        some "Amount must be a positive number with maximum 2 decimal places." ∧
      (amountRegexOK "0".data = true ∧
        validateFormAmountError "0" = some "Amount must be greater than 0.") ∧
      validateFormAmountError "1000000" = some "Amount is too large." := by
  refine ⟨fun fd now => ?_, by decide, by decide, by decide, by decide⟩
  exact validateFormAmountError_eq_none_iff fd.amount

/-! ## C10: sanitised text carries no angle bracket -/

theorem scanReplace_not_mem (f : List Char → Option ℕ) (rep : List Char)
    (c : Char) (hrep : c ∉ rep) :
    ∀ n : ℕ, ∀ l : List Char, l.length ≤ n → c ∉ l →
      c ∉ scanReplace f rep l := by
  intro n
  induction n with
  | zero =>
    intro l hl _
    have hnil : l = [] := List.length_eq_zero.mp (Nat.le_zero.mp hl)
    subst hnil
    simp [scanReplace]
  | succ n ih =>
    intro l hl hc
    cases l with
    | nil => simp [scanReplace]
    | cons x xs =>
      rw [scanReplace]
      cases hf : f (x :: xs) with
      | some k =>
        intro hmem
        rcases List.mem_append.mp hmem with hm | hm
        · exact hrep hm
        · exact ih (xs.drop k)
            (by rw [List.length_drop]; simp only [List.length_cons] at hl; omega)
            (fun hd => hc (List.mem_cons_of_mem x (List.mem_of_mem_drop hd))) hm
      | none =>
        intro hmem
        rcases List.mem_cons.mp hmem with hm | hm
        · exact hc (by simp [hm])
        · exact ih xs (by simpa using hl)
            (fun hd => hc (List.mem_cons_of_mem x hd)) hm

theorem scanReplace_matchAngle_not_mem (c : Char) (hc : c = '<' ∨ c = '>') :
    ∀ n : ℕ, ∀ l : List Char, l.length ≤ n →
      c ∉ scanReplace matchAngle [] l := by
  intro n
  induction n with
  | zero =>
    intro l hl
    have hnil : l = [] := List.length_eq_zero.mp (Nat.le_zero.mp hl)
    subst hnil
    simp [scanReplace]
  | succ n ih =>
    intro l hl
    cases l with
    | nil => simp [scanReplace]
    | cons x xs =>
      rw [scanReplace]
      have hd : matchAngle (x :: xs) =
          (if (x = '<' || x = '>' : Bool) then some 0 else none) := rfl
      rw [hd]
      by_cases hx : (x = '<' || x = '>' : Bool)
      · rw [if_pos hx]
        intro hmem
        rcases List.mem_append.mp hmem with hm | hm
        · simp at hm
        · exact ih (xs.drop 0) (by simpa using hl) hm
      · rw [if_neg hx]
        simp only [Bool.or_eq_true, decide_eq_true_eq, not_or] at hx
        intro hmem
        rcases List.mem_cons.mp hmem with hm | hm
        · rw [hm] at hc
          rcases hc with hc | hc
          · exact hx.1 hc
          · exact hx.2 hc
        · exact ih xs (by simpa using hl) hm

theorem jsTrim_not_mem (c : Char) (l : List Char) (h : c ∉ l) :
    c ∉ jsTrim l := by
  intro hmem
  apply h
  unfold jsTrim at hmem
  rw [List.mem_reverse] at hmem
  have h1 := (List.dropWhile_sublist (p := jsWhitespaceChar)).subset hmem
  rw [List.mem_reverse] at h1
  exact (List.dropWhile_sublist (p := jsWhitespaceChar)).subset h1

/-- C10: every output of `sanitizeInput` is free of `<` and `>`: the first
replacement removes all angle brackets and none of the later replacement or
trim steps can reintroduce one. -/
theorem sanitizeInput_no_angle_brackets (s : String) :
    '<' ∉ (sanitizeInput s).data ∧ '>' ∉ (sanitizeInput s).data := by
  have key : ∀ c : Char, c = '<' ∨ c = '>' → c ∉ (sanitizeInput s).data := by
    intro c hc
    have h0 : c ∉ scanReplace matchAngle [] s.data :=
      scanReplace_matchAngle_not_mem c hc s.data.length s.data (le_refl _)
    have hrep1 : c ∉ ("" : String).data := by simp
    have h1 : c ∉ scanReplace matchJsProtocol []
        (scanReplace matchAngle [] s.data) :=
      scanReplace_not_mem _ _ c (by simp) _ _ (le_refl _) h0
    have h2 : c ∉ scanReplace matchEventHandler [] _ :=
      scanReplace_not_mem _ _ c (by simp) _ _ (le_refl _) h1
    have h3 : c ∉ scanReplace (matchChar '&') "&amp;".data _ :=
      scanReplace_not_mem _ _ c
        (by rcases hc with hc | hc <;> subst hc <;> decide) _ _ (le_refl _) h2
    have h4 : c ∉ scanReplace (matchChar '"') "&quot;".data _ :=
      scanReplace_not_mem _ _ c
        (by rcases hc with hc | hc <;> subst hc <;> decide) _ _ (le_refl _) h3
    have h5 : c ∉ scanReplace (matchChar '\'') "&#x27;".data _ :=
      scanReplace_not_mem _ _ c
        (by rcases hc with hc | hc <;> subst hc <;> decide) _ _ (le_refl _) h4
    have h6 : c ∉ scanReplace (matchChar '/') "&#x2F;".data _ :=
      scanReplace_not_mem _ _ c
        (by rcases hc with hc | hc <;> subst hc <;> decide) _ _ (le_refl _) h5
    exact jsTrim_not_mem c _ h6
  exact ⟨key '<' (Or.inl rfl), key '>' (Or.inr rfl)⟩

/-! ## Stable-sort lemmas for C6 and C7 -/

theorem stableSort_cons {α : Type} (lt : α → α → Bool) (x : α) (xs : List α) :
    stableSort lt (x :: xs) = stableInsert lt x (stableSort lt xs) := rfl

theorem stableSort_eq_self {α : Type} (lt : α → α → Bool) (l : List α)
    (h : l.Pairwise (fun a b => lt b a = false)) : stableSort lt l = l := by
  induction l with
  | nil => rfl
  | cons x xs ih =>
    rw [stableSort_cons, ih (List.pairwise_cons.mp h).2]
    cases xs with
    | nil => rfl
    | cons z zs =>
      unfold stableInsert
      rw [(List.pairwise_cons.mp h).1 z (by simp)]
      simp

theorem filter_stableInsert {α : Type} (lt : α → α → Bool) (p : α → Bool)
    (x : α) (l : List α) (hx : p x = false) :
    (stableInsert lt x l).filter p = l.filter p := by
  induction l with
  | nil => simp [stableInsert, hx]
  | cons y ys ih =>
    unfold stableInsert
    by_cases hlt : lt y x = true
    · rw [if_pos hlt]
      rw [List.filter_cons, List.filter_cons]
      cases p y <;> simp [ih]
    · rw [if_neg hlt]
      rw [List.filter_cons, hx, List.filter_cons]
      simp

theorem mem_stableInsert_self {α : Type} (lt : α → α → Bool) (x : α)
    (l : List α) : x ∈ stableInsert lt x l := by
  induction l with
  | nil => simp [stableInsert]
  | cons y ys ih =>
    unfold stableInsert
    by_cases hlt : lt y x = true
    · rw [if_pos hlt]; exact List.mem_cons_of_mem y ih
    · rw [if_neg hlt]; simp

theorem mem_stableInsert {α : Type} (lt : α → α → Bool) (x z : α)
    (l : List α) (h : z ∈ stableInsert lt x l) : z = x ∨ z ∈ l := by
  induction l with
  | nil => simpa [stableInsert] using h
  | cons y ys ih =>
    unfold stableInsert at h
    by_cases hlt : lt y x = true
    · rw [if_pos hlt] at h
      rcases List.mem_cons.mp h with hz | hz
      · exact Or.inr (by simp [hz])
      · rcases ih hz with hz | hz
        · exact Or.inl hz
        · exact Or.inr (List.mem_cons_of_mem y hz)
    · rw [if_neg hlt] at h
      rcases List.mem_cons.mp h with hz | hz
      · exact Or.inl hz
      · exact Or.inr hz

theorem stableInsert_perm {α : Type} (lt : α → α → Bool) (x : α)
    (l : List α) : List.Perm (stableInsert lt x l) (x :: l) := by
  induction l with
  | nil => rfl
  | cons y ys ih =>
    unfold stableInsert
    by_cases hlt : lt y x = true
    · rw [if_pos hlt]
      exact ((ih.cons y).trans (List.Perm.swap x y ys))
    · rw [if_neg hlt]

theorem stableSort_perm {α : Type} (lt : α → α → Bool) (l : List α) :
    List.Perm (stableSort lt l) l := by
  induction l with
  | nil => rfl
  | cons x xs ih =>
    rw [stableSort_cons]
    exact (stableInsert_perm lt x (stableSort lt xs)).trans (ih.cons x)

theorem stableInsert_pairwise {α : Type} (lt : α → α → Bool)
    (hanti : ∀ a b, lt a b = true → lt b a = false)
    (htr : ∀ a b c, lt b a = false → lt c b = false → lt c a = false)
    (x : α) (l : List α) :
    l.Pairwise (fun a b => lt b a = false) →
      (stableInsert lt x l).Pairwise (fun a b => lt b a = false) := by
  induction l with
  | nil => intro h; simp [stableInsert]
  | cons y ys ih =>
    intro h
    obtain ⟨hy, hys⟩ := List.pairwise_cons.mp h
    unfold stableInsert
    by_cases hlt : lt y x = true
    · rw [if_pos hlt]
      rw [List.pairwise_cons]
      refine ⟨?_, ih hys⟩
      intro z hz
      rcases mem_stableInsert lt x z ys hz with hz | hz
      · rw [hz]; exact hanti y x hlt
      · exact hy z hz
    · rw [if_neg hlt]
      rw [List.pairwise_cons]
      refine ⟨?_, h⟩
      intro z hz
      rcases List.mem_cons.mp hz with hz | hz
      · subst hz; exact Bool.eq_false_iff.mpr hlt
      · exact htr x y z (Bool.eq_false_iff.mpr hlt) (hy z hz)

theorem stableSort_pairwise {α : Type} (lt : α → α → Bool)
    (hanti : ∀ a b, lt a b = true → lt b a = false)
    (htr : ∀ a b c, lt b a = false → lt c b = false → lt c a = false)
    (l : List α) :
    (stableSort lt l).Pairwise (fun a b => lt b a = false) := by
  induction l with
  | nil => simp [stableSort]
  | cons x xs ih =>
    rw [stableSort_cons]
    exact stableInsert_pairwise lt hanti htr x (stableSort lt xs) ih

theorem stableInsert_all_lt {α : Type} (lt : α → α → Bool) (x : α)
    (l : List α) (h : ∀ y ∈ l, lt y x = true) :
    stableInsert lt x l = l ++ [x] := by
  induction l with
  | nil => rfl
  | cons y ys ih =>
    unfold stableInsert
    rw [if_pos (h y (by simp)), ih (fun z hz => h z (List.mem_cons_of_mem y hz))]
    rfl

theorem stableSort_of_strict_desc {α : Type} (lt : α → α → Bool) (l : List α)
    (h : l.Pairwise (fun a b => lt b a = true)) :
    stableSort lt l = l.reverse := by
  induction l with
  | nil => rfl
  | cons x xs ih =>
    obtain ⟨hx, hxs⟩ := List.pairwise_cons.mp h
    rw [stableSort_cons, ih hxs,
      stableInsert_all_lt lt x xs.reverse
        (fun y hy => hx y (List.mem_reverse.mp hy)),
      List.reverse_cons]

/-! ## C6: add-then-delete round trip -/

/-- C6 (amended): on a store whose record collection is already ordered by
the current sort (the invariant every store mutation re-establishes), and
with a fresh id, adding a record and deleting it by the returned id
restores exactly the previous collection. -/
theorem addRecord_deleteRecord_roundtrip (lc : String → String → ℤ)
    (st : StoreState) (recordData : FormData) (freshId nowIso : String)
    (hsorted : st.records.Pairwise
      (fun a b => recordLT lc st.sortKey st.sortDirection b a = false))
    (hfresh : ∀ r ∈ st.records, r.id ≠ freshId) :
    (deleteRecord (addRecord lc st recordData freshId nowIso).2.1
        (addRecord lc st recordData freshId nowIso).1.id).2.1.records =
      st.records := by
  have hid : (addRecord lc st recordData freshId nowIso).1.id = freshId := rfl
  have hadd : (addRecord lc st recordData freshId nowIso).2.1.records =
      stableInsert (recordLT lc st.sortKey st.sortDirection)
        (addRecord lc st recordData freshId nowIso).1 st.records := by
    show sortRecords lc ((addRecord lc st recordData freshId nowIso).1 :: st.records)
        st.sortKey st.sortDirection = _
    unfold sortRecords
    rw [stableSort_cons, stableSort_eq_self _ _ hsorted]
  unfold deleteRecord
  rw [hadd, hid]
  cases hfind : (stableInsert (recordLT lc st.sortKey st.sortDirection)
      (addRecord lc st recordData freshId nowIso).1 st.records).find?
      (fun r => r.id == freshId) with
  | none =>
    exfalso
    have hmem := mem_stableInsert_self
      (recordLT lc st.sortKey st.sortDirection)
      (addRecord lc st recordData freshId nowIso).1 st.records
    have hnone := List.find?_eq_none.mp hfind _ hmem
    rw [hid] at hnone
    simp at hnone
  | some r =>
    show (stableInsert (recordLT lc st.sortKey st.sortDirection)
        (addRecord lc st recordData freshId nowIso).1 st.records).filter
        (fun x => !(x.id == freshId)) = st.records
    rw [filter_stableInsert _ _ _ _ (by rw [hid]; simp)]
    rw [List.filter_eq_self]
    intro a ha
    simpa using hfresh a ha

/-- C6 (witness): the round trip at a concrete empty store. -/
theorem addRecord_deleteRecord_roundtrip_witness :
    (deleteRecord
        (addRecord (fun _ _ => 0) ⟨[], SortKey.date, "desc", ⟨some 1000⟩⟩
            ⟨"Lunch", "12.50", "2026-10-01", "Food"⟩ "txn_w" "now").2.1
        (addRecord (fun _ _ => 0) ⟨[], SortKey.date, "desc", ⟨some 1000⟩⟩
            ⟨"Lunch", "12.50", "2026-10-01", "Food"⟩ "txn_w" "now").1.id).2.1.records =
      [] :=
  addRecord_deleteRecord_roundtrip (fun _ _ => 0)
    ⟨[], SortKey.date, "desc", ⟨some 1000⟩⟩
    ⟨"Lunch", "12.50", "2026-10-01", "Food"⟩ "txn_w" "now"
    List.Pairwise.nil (by simp)

/-- C6 (counterexample): on a store whose records are NOT ordered by the
current sort — a state the application reaches after a reload, since the
current sort resets to its default while the records keep their stored
order — adding a record and deleting it again returns the re-sorted
collection, not the original one.  The collation is plain codepoint
comparison (`lexCmpS`), which every real locale realises on these
lowercase ASCII descriptions: the store holds descriptions `["b", "a"]`
under an ascending description sort, and the round trip turns the record
order `["b", "a"]` into `["a", "b"]`. -/
theorem addRecord_deleteRecord_roundtrip_cex :
    ¬((deleteRecord
        (addRecord lexCmpS
            ⟨[⟨"b", "b", 5, "Food", "2026-10-01", "t", "t"⟩,
              ⟨"a", "a", 1, "Food", "2026-10-02", "t", "t"⟩],
              SortKey.description, "asc", ⟨some 1000⟩⟩
            ⟨"mk", "3", "2026-10-03", "Food"⟩ "txn_n" "now").2.1
        (addRecord lexCmpS
            ⟨[⟨"b", "b", 5, "Food", "2026-10-01", "t", "t"⟩,
              ⟨"a", "a", 1, "Food", "2026-10-02", "t", "t"⟩],
              SortKey.description, "asc", ⟨some 1000⟩⟩
            ⟨"mk", "3", "2026-10-03", "Food"⟩ "txn_n" "now").1.id).2.1.records =
      [⟨"b", "b", 5, "Food", "2026-10-01", "t", "t"⟩,
        ⟨"a", "a", 1, "Food", "2026-10-02", "t", "t"⟩]) := by
  intro h
  exact absurd (congrArg (List.map Record.id) h) (by decide)

/-! ## C7: sort reversal and idempotence -/

theorem recordLT_true_iff (lc : String → String → ℤ) (key : SortKey)
    (direction : String) (a b : Record) :
    recordLT lc key direction a b = true ↔
      cmpWithDirection lc key direction a b < 0 := by
  simp [recordLT]

theorem recordLT_false_iff (lc : String → String → ℤ) (key : SortKey)
    (direction : String) (a b : Record) :
    recordLT lc key direction a b = false ↔
      0 ≤ cmpWithDirection lc key direction a b := by
  simp [recordLT, not_lt]

theorem cmpWithDirection_opp (lc : String → String → ℤ)
    (hopp : ∀ a b, 0 < lc a b ↔ lc b a < 0) (key : SortKey)
    (direction : String) (a b : Record) :
    0 < cmpWithDirection lc key direction a b ↔
      cmpWithDirection lc key direction b a < 0 := by
  unfold cmpWithDirection
  by_cases hdir : direction = "asc"
  · rw [if_pos hdir, if_pos hdir]
    cases key <;> simp only [recordCmp] <;>
      first
        | (constructor <;> intro h <;> linarith)
        | exact_mod_cast hopp _ _
  · rw [if_neg hdir, if_neg hdir]
    rw [neg_pos, neg_lt_zero]
    cases key <;> simp only [recordCmp] <;>
      first
        | (constructor <;> intro h <;> linarith)
        | exact_mod_cast (hopp _ _).symm

theorem cmpWithDirection_trans (lc : String → String → ℤ)
    (hopp : ∀ a b, 0 < lc a b ↔ lc b a < 0)
    (htrans : ∀ a b c, lc a b ≤ 0 → lc b c ≤ 0 → lc a c ≤ 0) (key : SortKey)
    (direction : String) (a b c : Record) :
    0 ≤ cmpWithDirection lc key direction b a →
      0 ≤ cmpWithDirection lc key direction c b →
        0 ≤ cmpWithDirection lc key direction c a := by
  have flip : ∀ x y, 0 ≤ lc y x ↔ lc x y ≤ 0 := by
    intro x y
    constructor
    · intro h
      by_contra hc
      push_neg at hc
      have := (hopp x y).mp hc
      omega
    · intro h
      by_contra hc
      push_neg at hc
      have := (hopp x y).mpr hc
      omega
  intro h1 h2
  unfold cmpWithDirection at h1 h2 ⊢
  by_cases hdir : direction = "asc"
  · rw [if_pos hdir] at h1 h2 ⊢
    cases key <;> simp only [recordCmp] at h1 h2 ⊢ <;>
      first
        | linarith
        | (rw [Int.cast_nonneg] at h1 h2 ⊢
           exact (flip _ _).mpr (htrans _ _ _ ((flip _ _).mp h1) ((flip _ _).mp h2)))
  · rw [if_neg hdir] at h1 h2 ⊢
    rw [neg_nonneg] at h1 h2 ⊢
    cases key <;> simp only [recordCmp] at h1 h2 ⊢ <;>
      first
        | linarith
        | (rw [Int.cast_nonpos] at h1 h2 ⊢
           exact htrans _ _ _ h2 h1)

/-- C7 (amended, with a counterexample for the reversal at tied amounts):
provided the locale comparison is sign-antisymmetric and transitive (as the
platform collation is), sorting by amount ascending and re-sorting the
result descending is the exact reverse whenever the amounts are pairwise
distinct — the stable sort keeps tied records in their previous order, so
ties break exact reversal — and for every key and direction sorting twice
equals sorting once. -/
theorem sortRecords_reverse_and_idempotent (lc : String → String → ℤ)
    (hopp : ∀ a b, 0 < lc a b ↔ lc b a < 0)
    (htrans : ∀ a b c, lc a b ≤ 0 → lc b c ≤ 0 → lc a c ≤ 0) :
    (∀ l : List Record, l.Pairwise (fun a b => a.amount ≠ b.amount) →
        sortRecords lc (sortRecords lc l .amount "asc") .amount "desc" =
          (sortRecords lc l .amount "asc").reverse) ∧
      (∀ (key : SortKey) (direction : String) (l : List Record),
        sortRecords lc (sortRecords lc l key direction) key direction =
          sortRecords lc l key direction) := by
  have hanti : ∀ (key : SortKey) (direction : String) (a b : Record),
      recordLT lc key direction a b = true →
        recordLT lc key direction b a = false := by
    intro key direction a b h
    rw [recordLT_true_iff] at h
    rw [recordLT_false_iff]
    by_contra hc
    push_neg at hc
    have := (cmpWithDirection_opp lc hopp key direction b a).mpr h
    linarith
  have htr : ∀ (key : SortKey) (direction : String) (a b c : Record),
      recordLT lc key direction b a = false →
        recordLT lc key direction c b = false →
          recordLT lc key direction c a = false := by
    intro key direction a b c h1 h2
    rw [recordLT_false_iff] at h1 h2 ⊢
    exact cmpWithDirection_trans lc hopp htrans key direction a b c h1 h2
  constructor
  · intro l hdist
    have hsortedA := stableSort_pairwise (recordLT lc .amount "asc")
      (hanti .amount "asc") (htr .amount "asc") l
    have hdist' : (stableSort (recordLT lc .amount "asc") l).Pairwise
        (fun a b => a.amount ≠ b.amount) :=
      ((stableSort_perm (recordLT lc .amount "asc") l).pairwise_iff
        (fun h => h.symm)).mpr hdist
    have hstrict : (stableSort (recordLT lc .amount "asc") l).Pairwise
        (fun a b => recordLT lc .amount "desc" b a = true) := by
      refine (hsortedA.and hdist').imp ?_
      rintro a b ⟨hab, hne⟩
      rw [recordLT_false_iff] at hab
      rw [recordLT_true_iff]
      unfold cmpWithDirection at hab ⊢
      rw [if_pos rfl] at hab
      rw [if_neg (show ¬("desc" = "asc") from by decide)]
      simp only [recordCmp] at hab ⊢
      rcases lt_or_gt_of_ne hne with hlt | hlt
      · linarith
      · linarith
    show stableSort (recordLT lc .amount "desc")
        (stableSort (recordLT lc .amount "asc") l) =
      (stableSort (recordLT lc .amount "asc") l).reverse
    exact stableSort_of_strict_desc _ _ hstrict
  · intro key direction l
    unfold sortRecords
    exact stableSort_eq_self _ _
      (stableSort_pairwise _ (hanti key direction) (htr key direction) l)

/-- C7 (witness): reversal and idempotence at concrete one-record lists
under the trivial collation. -/
theorem sortRecords_reverse_and_idempotent_witness :
    sortRecords (fun _ _ => 0)
        (sortRecords (fun _ _ => 0)
          [⟨"a", "x", 5, "Food", "2026-01-01", "t", "t"⟩] .amount "asc")
        .amount "desc" =
      (sortRecords (fun _ _ => 0)
        [⟨"a", "x", 5, "Food", "2026-01-01", "t", "t"⟩] .amount "asc").reverse ∧
    sortRecords (fun _ _ => 0)
        (sortRecords (fun _ _ => 0)
          [⟨"a", "x", 5, "Food", "2026-01-01", "t", "t"⟩] .date "desc")
        .date "desc" =
      sortRecords (fun _ _ => 0)
        [⟨"a", "x", 5, "Food", "2026-01-01", "t", "t"⟩] .date "desc" :=
  ⟨(sortRecords_reverse_and_idempotent (fun _ _ => 0) (fun _ _ => Iff.rfl)
      (fun _ _ _ _ _ => le_refl 0)).1
    [⟨"a", "x", 5, "Food", "2026-01-01", "t", "t"⟩] (by simp),
    (sortRecords_reverse_and_idempotent (fun _ _ => 0) (fun _ _ => Iff.rfl)
      (fun _ _ _ _ _ => le_refl 0)).2 .date "desc"
      [⟨"a", "x", 5, "Food", "2026-01-01", "t", "t"⟩]⟩

/-- C7 (counterexample): with two records of equal amount, descending
re-sort of the ascending result is NOT the reverse of the ascending
ordering — the stable sort keeps the tie in input order. -/
theorem sortRecords_desc_reverse_cex :
    ¬(sortRecords (fun _ _ => 0)
          (sortRecords (fun _ _ => 0)
            [⟨"a", "x", 5, "Food", "2026-01-01", "t", "t"⟩,
              ⟨"b", "y", 5, "Food", "2026-01-02", "t", "t"⟩] .amount "asc")
          .amount "desc" =
        (sortRecords (fun _ _ => 0)
            [⟨"a", "x", 5, "Food", "2026-01-01", "t", "t"⟩,
              ⟨"b", "y", 5, "Food", "2026-01-02", "t", "t"⟩] .amount
            "asc").reverse) := by
  intro h
  have h1 : recordLT (fun _ _ => 0) .amount "asc"
      (⟨"b", "y", 5, "Food", "2026-01-02", "t", "t"⟩ : Record)
      (⟨"a", "x", 5, "Food", "2026-01-01", "t", "t"⟩ : Record) = false := by
    unfold recordLT cmpWithDirection recordCmp
    norm_num
  have h2 : recordLT (fun _ _ => 0) .amount "desc"
      (⟨"b", "y", 5, "Food", "2026-01-02", "t", "t"⟩ : Record)
      (⟨"a", "x", 5, "Food", "2026-01-01", "t", "t"⟩ : Record) = false := by
    unfold recordLT cmpWithDirection recordCmp
    norm_num
  have hasc : sortRecords (fun _ _ => 0)
      [⟨"a", "x", 5, "Food", "2026-01-01", "t", "t"⟩,
        ⟨"b", "y", 5, "Food", "2026-01-02", "t", "t"⟩] .amount "asc" =
      [⟨"a", "x", 5, "Food", "2026-01-01", "t", "t"⟩,
        ⟨"b", "y", 5, "Food", "2026-01-02", "t", "t"⟩] := by
    simp [sortRecords, stableSort, stableInsert, h1]
  have hdesc : sortRecords (fun _ _ => 0)
      [⟨"a", "x", 5, "Food", "2026-01-01", "t", "t"⟩,
        ⟨"b", "y", 5, "Food", "2026-01-02", "t", "t"⟩] .amount "desc" =
      [⟨"a", "x", 5, "Food", "2026-01-01", "t", "t"⟩,
        ⟨"b", "y", 5, "Food", "2026-01-02", "t", "t"⟩] := by
    simp [sortRecords, stableSort, stableInsert, h2]
  rw [hasc, hdesc] at h
  exact absurd (congrArg (List.map Record.id) h) (by decide)

/-! ## C4: `compileRegex` -/

theorem jsTrim_rdropWhile_repr (l : List Char) :
    jsTrim l = List.rdropWhile jsWhitespaceChar (l.dropWhile jsWhitespaceChar) :=
  rfl

theorem jsTrim_idem (l : List Char) : jsTrim (jsTrim l) = jsTrim l := by
  rw [jsTrim_rdropWhile_repr l, jsTrim_rdropWhile_repr]
  have hself : List.dropWhile jsWhitespaceChar
      (List.dropWhile jsWhitespaceChar l) = List.dropWhile jsWhitespaceChar l :=
    List.dropWhile_idempotent _ _
  obtain ⟨s, hs⟩ := List.rdropWhile_prefix
    (p := jsWhitespaceChar) (l := List.dropWhile jsWhitespaceChar l)
  have hdr : List.dropWhile jsWhitespaceChar
      (List.rdropWhile jsWhitespaceChar (List.dropWhile jsWhitespaceChar l)) =
      List.rdropWhile jsWhitespaceChar (List.dropWhile jsWhitespaceChar l) := by
    cases hrd : List.rdropWhile jsWhitespaceChar
        (List.dropWhile jsWhitespaceChar l) with
    | nil => simp
    | cons a t =>
      rw [hrd] at hs
      cases hb : jsWhitespaceChar a with
      | false => simp [List.dropWhile_cons, hb]
      | true =>
        exfalso
        rw [← hs] at hself
        simp only [List.cons_append, List.dropWhile_cons, hb, if_true] at hself
        have hlen := congrArg List.length hself
        have hle : (List.dropWhile jsWhitespaceChar (t ++ s)).length ≤
            (t ++ s).length := (List.dropWhile_suffix jsWhitespaceChar).length_le
        simp only [List.length_cons] at hlen
        omega
  rw [hdr, List.rdropWhile_idempotent]

/-- C4 (counterexample): `compileRegex("/coffee|tea/i")` and
`compileRegex("coffee|tea")` both compile but are NOT equivalent matchers:
the first input does not end with a slash, so no delimiter is stripped and
the whole text — slashes and trailing flag letter included — becomes the
pattern, which fails to match `"tea"` while the plain pattern matches it. -/
theorem compileRegex_slash_flag_cex :
    (compileRegex "/coffee|tea/i" "i").map (fun m => regexTestJs m "tea") =
        some false ∧
      (compileRegex "coffee|tea" "i").map (fun m => regexTestJs m "tea") =
        some true := by
  constructor
  · decide
  · decide

/-- C4 (amended): `compileRegex("/coffee|tea/")` (slash-delimited, nothing
after the closing slash) compiles to the very same matcher as
`compileRegex("coffee|tea")`; `compileRegex("(unclosed")` returns null;
compile trims its input, strips one leading and one trailing slash exactly
when the trimmed input both starts and ends with a slash, and returns null
precisely for empty-after-stripping input or a pattern-syntax error. -/
theorem compileRegex_spec :
    compileRegex "/coffee|tea/" "i" = compileRegex "coffee|tea" "i" ∧
      (compileRegex "coffee|tea" "i").isSome = true ∧
      compileRegex "(unclosed" "i" = none ∧
      (∀ input flags : String,
        compileRegex input flags = none ↔
          strippedPattern input = [] ∨
            parsePattern (strippedPattern input) = none) ∧
      (∀ input flags : String,
        compileRegex input flags = compileRegex (jsTrimS input) flags) := by
  refine ⟨by decide, by decide, by decide, ?_, ?_⟩
  · intro input flags
    by_cases hin : input = ""
    · subst hin
      constructor
      · intro _
        left
        decide
      · intro _
        unfold compileRegex
        rw [if_pos rfl]
    · have hred : compileRegex input flags =
          (if (strippedPattern input).isEmpty = true then none
           else
             match parsePattern (strippedPattern input) with
             | some r =>
               some ⟨r, if flags.data.contains 'g' then flags else flags ++ "g"⟩
             | none => none) := by
        unfold compileRegex
        rw [if_neg hin]
      rw [hred]
      by_cases hemp : (strippedPattern input).isEmpty = true
      · rw [if_pos hemp]
        constructor
        · intro _
          exact Or.inl (List.isEmpty_iff.mp hemp)
        · intro _
          rfl
      · rw [if_neg hemp]
        cases hp : parsePattern (strippedPattern input) with
        | none =>
          constructor
          · intro _
            exact Or.inr rfl
          · intro _
            rfl
        | some r =>
          constructor
          · intro hcon
            exact absurd hcon (by simp)
          · rintro (hcon | hcon)
            · exact (hemp (by rw [hcon]; rfl)).elim
            · exact absurd hcon (by simp)
  · intro input flags
    by_cases h1 : input = ""
    · subst h1
      rfl
    · by_cases h2 : jsTrimS input = ""
      · have hnil : jsTrim input.data = [] := by
          have := congrArg String.data h2
          simpa [jsTrimS] using this
        have hsp : strippedPattern input = [] := by
          unfold strippedPattern
          rw [hnil]
          rfl
        rw [h2]
        have hL : compileRegex input flags = none := by
          unfold compileRegex
          rw [if_neg h1]
          simp [hsp]
        have hR : compileRegex "" flags = none := by
          unfold compileRegex
          rw [if_pos rfl]
        rw [hL, hR]
      · have hsp : strippedPattern (jsTrimS input) = strippedPattern input := by
          unfold strippedPattern
          have hdata : (jsTrimS input).data = jsTrim input.data := rfl
          rw [hdata, jsTrim_idem]
        unfold compileRegex
        rw [if_neg h1, if_neg h2, hsp]

/-! ## C2: date validation -/

theorem daysBeforeYear_succ (k : ℕ) :
    daysBeforeYear (k + 2) =
      daysBeforeYear (k + 1) + 365 + (if isLeapYear (k + 1) then 1 else 0) := by
  unfold daysBeforeYear
  rw [show k + 2 - 1 = k + 1 from rfl, show k + 1 - 1 = k from rfl]
  split_ifs with hl
  · simp only [isLeapYear, Bool.and_eq_true, Bool.or_eq_true,
      decide_eq_true_eq, ne_eq] at hl
    omega
  · simp only [isLeapYear, Bool.and_eq_true, Bool.or_eq_true,
      decide_eq_true_eq, ne_eq] at hl
    omega

theorem dayNumber_prev_year_gap (y m d : ℕ) (hy : 2 ≤ y) :
    dayNumber y m d - dayNumber (y - 1) m d = 365 ∨
      dayNumber y m d - dayNumber (y - 1) m d = 366 := by
  obtain ⟨k, rfl⟩ : ∃ k, y = k + 2 := ⟨y - 2, by omega⟩
  unfold dayNumber
  rw [show k + 2 - 1 = k + 1 from rfl]
  rw [daysBeforeYear_succ k]
  split_ifs <;>
    first
      | omega
      | simp_all

theorem validateField_date_true (l : List Char) (h : dateRegexOK l = true) :
    validateField .date l = (true, "") := by
  unfold validateField
  rw [requiredFail_false_of_dateRegexOK l h]
  simp [regexTestOf, h]

theorem validateField_date_false (l : List Char)
    (h : dateRegexOK l = false) : (validateField .date l).1 = false := by
  unfold validateField
  by_cases hrq : requiredFail l
  · simp [hrq]
  · simp [hrq, regexTestOf, h]

theorem validateFormDateError_ne_none_of_regex_false (now : NowClock)
    (s : String) (h : dateRegexOK s.data = false) :
    validateFormDateError s now ≠ none := by
  unfold validateFormDateError
  by_cases hs : s = ""
  · subst hs
    rw [if_pos rfl]
    decide
  · rw [if_neg hs]
    have hvf := validateField_date_false s.data h
    rw [hvf]
    simp

theorem validateFormDateError_eq_none_iff (now : NowClock) (s : String)
    (hoff : now.tzOffset = 0) (ht0 : 0 < now.msOfDay)
    (ht1 : now.msOfDay < msPerDay) (hre : dateRegexOK s.data = true) :
    validateFormDateError s now = none ↔
      (dayNumber (parseYear s.data) (parseMonth s.data) (parseDay s.data) ≤
          dayNumber now.year now.month now.day ∧
        dayNumber (now.year - 1) now.month now.day <
          dayNumber (parseYear s.data) (parseMonth s.data) (parseDay s.data)) := by
  have hne : s ≠ "" := by
    intro he
    rw [he] at hre
    exact absurd hre (by decide)
  have hvf := validateField_date_true s.data hre
  have hreq := requiredFail_false_of_dateRegexOK s.data hre
  have ht1' : now.msOfDay < 86400000 := ht1
  have hfut_iff : nowTs now < parseDateTs s.data ↔
      dayNumber now.year now.month now.day <
        dayNumber (parseYear s.data) (parseMonth s.data) (parseDay s.data) := by
    unfold nowTs parseDateTs msPerDay
    rw [hoff]
    omega
  have hold_iff : parseDateTs s.data < oneYearAgoTs now ↔
      dayNumber (parseYear s.data) (parseMonth s.data) (parseDay s.data) ≤
        dayNumber (now.year - 1) now.month now.day := by
    unfold parseDateTs oneYearAgoTs msPerDay
    rw [hoff]
    omega
  unfold validateFormDateError
  rw [if_neg hne, hvf]
  simp only [Bool.not_true, Bool.false_eq_true, if_false]
  by_cases hfut : nowTs now < parseDateTs s.data
  · rw [if_pos hfut]
    rw [hfut_iff] at hfut
    constructor
    · intro hcon
      exact absurd hcon (by simp)
    · rintro ⟨hup, _⟩
      exact absurd hfut (by omega)
  · rw [if_neg hfut]
    rw [hfut_iff] at hfut
    by_cases hold : parseDateTs s.data < oneYearAgoTs now
    · rw [if_pos hold]
      rw [hold_iff] at hold
      constructor
      · intro hcon
        exact absurd hcon (by simp)
      · rintro ⟨_, hlo⟩
        exact absurd hold (by omega)
    · rw [if_neg hold]
      rw [hold_iff] at hold
      unfold requiredError
      rw [hreq]
      simp only [Bool.false_eq_true, if_false]
      constructor
      · intro _
        exact ⟨by omega, by omega⟩
      · intro _
        trivial

/-- C2: a date string passes `validateForm` exactly when it matches the
`YYYY-MM-DD` pattern with month `01`–`12` and day `01`–`31` (a pattern-level
check only: the calendar-invalid `"2024-02-30"` passes the pattern, witness
the fourth conjunct) and, parsed as a date, its day is not after today and
is strictly after the same calendar day one year earlier.  The last three
conjuncts give the claim's examples for every clock: any strictly future
day fails, any day at least 366 days in the past fails, and any day between
364 days ago and today passes (in particular one exactly 300 days in the
past).  The clock is taken at UTC offset zero strictly inside a day, and
the parsed-date conjuncts are scoped to calendar-valid strings, where the
embedded linear date parse agrees with the browser `Date` semantics. -/
theorem validateForm_date_spec (now : NowClock) (hy : 2 ≤ now.year)
    (hoff : now.tzOffset = 0) (ht0 : 0 < now.msOfDay)
    (ht1 : now.msOfDay < msPerDay) :
    (∀ fd : FormData,
        (validateForm fd now).errors.date = validateFormDateError fd.date now) ∧
      (∀ s : String, dateRegexOK s.data = false →
        validateFormDateError s now ≠ none) ∧
      (∀ s : String, dateRegexOK s.data = true →
        parseDay s.data ≤ daysInMonth (parseYear s.data) (parseMonth s.data) →
        (validateFormDateError s now = none ↔
          (dayNumber (parseYear s.data) (parseMonth s.data) (parseDay s.data) ≤
              dayNumber now.year now.month now.day ∧
            dayNumber (now.year - 1) now.month now.day <
              dayNumber (parseYear s.data) (parseMonth s.data)
                (parseDay s.data)))) ∧
      dateRegexOK "2024-02-30".data = true ∧
      (∀ s : String, dateRegexOK s.data = true →
        parseDay s.data ≤ daysInMonth (parseYear s.data) (parseMonth s.data) →
        dayNumber now.year now.month now.day <
            dayNumber (parseYear s.data) (parseMonth s.data) (parseDay s.data) →
        validateFormDateError s now ≠ none) ∧
      (∀ s : String, dateRegexOK s.data = true →
        parseDay s.data ≤ daysInMonth (parseYear s.data) (parseMonth s.data) →
        dayNumber (parseYear s.data) (parseMonth s.data) (parseDay s.data) ≤
            dayNumber now.year now.month now.day - 366 →
        validateFormDateError s now ≠ none) ∧
      (∀ s : String, dateRegexOK s.data = true →
        parseDay s.data ≤ daysInMonth (parseYear s.data) (parseMonth s.data) →
        dayNumber now.year now.month now.day - 364 ≤
            dayNumber (parseYear s.data) (parseMonth s.data) (parseDay s.data) →
        dayNumber (parseYear s.data) (parseMonth s.data) (parseDay s.data) ≤
            dayNumber now.year now.month now.day →
        validateFormDateError s now = none) := by
  have hgap := dayNumber_prev_year_gap now.year now.month now.day hy
  refine ⟨fun fd => rfl, ?_, ?_, by decide, ?_, ?_, ?_⟩
  · intro s h
    exact validateFormDateError_ne_none_of_regex_false now s h
  · intro s hre _
    exact validateFormDateError_eq_none_iff now s hoff ht0 ht1 hre
  · intro s hre _ hfut hcon
    rw [validateFormDateError_eq_none_iff now s hoff ht0 ht1 hre] at hcon
    obtain ⟨hup, -⟩ := hcon
    omega
  · intro s hre _ hold hcon
    rw [validateFormDateError_eq_none_iff now s hoff ht0 ht1 hre] at hcon
    obtain ⟨-, hlo⟩ := hcon
    omega
  · intro s hre _ h1 h2
    rw [validateFormDateError_eq_none_iff now s hoff ht0 ht1 hre]
    exact ⟨h2, by omega⟩

/-- C2 (witness): at the clock 2026-10-12 noon UTC, the future date
`"2031-01-01"` is rejected, the date 366 days in the past (`"2025-10-11"`)
is rejected, and the date 300 days in the past (`"2025-12-16"`) is
accepted. -/
theorem validateForm_date_spec_witness :
    2 ≤ (2026 : ℕ) ∧
      validateFormDateError "2031-01-01" ⟨2026, 10, 12, 43200000, 0⟩ ≠ none ∧
      validateFormDateError "2025-10-11" ⟨2026, 10, 12, 43200000, 0⟩ ≠ none ∧
      validateFormDateError "2025-12-16" ⟨2026, 10, 12, 43200000, 0⟩ = none := by
  obtain ⟨-, -, -, -, h5, h6, h7⟩ :=
    validateForm_date_spec ⟨2026, 10, 12, 43200000, 0⟩ (by decide) rfl
      (by decide) (by decide)
  exact ⟨by decide,
    h5 "2031-01-01" (by decide) (by decide) (by decide),
    h6 "2025-10-11" (by decide) (by decide) (by decide),
    h7 "2025-12-16" (by decide) (by decide) (by decide) (by decide)⟩
